/-
Verification of the host application `RTL/exercises/simple_pipeline/sw/main.cpp`
(a DMA AFU demo: argument validation, buffer initialization, a fixed MMIO
register protocol, a busy-poll completion wait, result printing, and
exception mapping).

The C++ code is shallowly embedded as executable Lean definitions:
  * `strtol10`, `stringToPositiveInt`, `checkUsage`, `mainArgPhase` model the
    argument-checking front end of `main` (lines 52-55, 153-183);
  * `loop32`, `pollLoop`, `runMain` model the body of the `try` block
    (lines 60-116) as a fuelled generator of event traces, with the
    external AFU/driver behaviour supplied by an `Env`;
  * `errMessage`, `mainExit` model the catch handlers (lines 118-140).
Machine integers are modelled as `Nat`/`Int` with explicit reductions
(`% 2^32` for `unsigned`, clamping to `LONG_MAX`/`LONG_MIN` for `long`).
-/
import Mathlib

namespace SimplePipeline

/-- Modulus `2^32` of the C `unsigned` type on the target (LP64 Linux). -/
def U32 : Nat := 4294967296

/-- Value of `LONG_MAX` for the 64-bit `long` of the target platform. -/
def LONG_MAX : Int := 9223372036854775807

/-- Value of `LONG_MIN` for the 64-bit `long` of the target platform. -/
def LONG_MIN : Int := -9223372036854775808

/-- Constant `EXIT_FAILURE` from `<cstdlib>`. -/
def EXIT_FAILURE : Nat := 1

/-- Constant `EXIT_SUCCESS` from `<cstdlib>`. -/
def EXIT_SUCCESS : Nat := 0

/-! ### The `strtol` model

`stringToPositiveInt` (main.cpp lines 153-163) calls
`strtol(str, &p, 10)`.  `strtol10` models the C standard behaviour of
`strtol` with base 10: skip leading whitespace (as classified by
`isspace` in the default locale), consume an optional single `+`/`-`
sign and a maximal run of decimal digits, clamp the resulting value to
`[LONG_MIN, LONG_MAX]`, and report the rest of the string (what the
out-parameter `p` points to).  If no digits are consumed, no conversion
is performed: the value is 0 and `p` is reset to the whole input string. -/

/-- The characters accepted by C `isspace` in the default locale. -/
def isSpaceC (c : Char) : Bool :=
  c = ' ' || c = '\t' || c = '\n' || c = '\x0b' || c = '\x0c' || c = '\r'

/-- Accumulate the numeric value of a run of decimal digits. -/
def digitsToNat : List Char → Nat → Nat
  | [], acc => acc
  | c :: cs, acc => digitsToNat cs (acc * 10 + (c.toNat - '0'.toNat))

/-- Clamp an integer into the range of the C `long` type, as `strtol`
does on overflow. -/
def clampLong (x : Int) : Int :=
  if x > LONG_MAX then LONG_MAX else if x < LONG_MIN then LONG_MIN else x

/-- Model of `strtol(str, &p, 10)`: returns the converted value and the
unconsumed rest of the string (the list `p` points to).  `strtol` always
stores a non-null pointer into `p` here, so the C test `p != 0` is
vacuously true and has no counterpart in the model. -/
def strtol10 (s : List Char) : Int × List Char :=
  let s1 := s.dropWhile isSpaceC
  let signAndRest : Int × List Char :=
    match s1 with
    | '-' :: r => (-1, r)
    | '+' :: r => (1, r)
    | _ => (1, s1)
  let ds := signAndRest.2.takeWhile Char.isDigit
  if ds = [] then (0, s)
  else (clampLong (signAndRest.1 * (digitsToNat ds 0 : Int)),
        signAndRest.2.dropWhile Char.isDigit)

/-- Function `stringToPositiveInt` (main.cpp lines 153-163).  Returns the
`unsigned long` representation of `str`; throwing the `runtime_error`
is modelled by `Except.error` carrying the exception message. -/
def stringToPositiveInt (str : List Char) : Except String Nat :=
  let r := strtol10 str
  if r.2 = [] ∧ 0 < r.1 then Except.ok r.1.toNat
  else Except.error "String is not a positive integer."

/-- Function `checkUsage` (main.cpp lines 166-183): succeeds (returning the
parsed `num_inputs`) exactly when `argc == 2`, the argument parses as a
positive integer, and that integer is a multiple of 128. -/
def checkUsage (argv : List String) : Option Nat :=
  match argv with
  | [_, arg] =>
    match stringToPositiveInt arg.data with
    | Except.ok n => if n % 128 ≠ 0 then none else some n
    | Except.error _ => none
  | _ => none

/-- The text printed by `printUsage` (main.cpp lines 144-149);
`argv[0]` is substituted for `name`. -/
def usageMessage (name : String) : String :=
  "Usage: " ++ name ++ " size num_tests\n" ++
  "size (positive integer for number of inputs to test, must be multiple of 128)\n" ++
  "\n"

/-- Outcome of the argument-checking prefix of `main`. -/
inductive ArgOutcome
  | proceed (num_inputs : Nat)
  | usageExit (printed : String) (code : Nat)
  deriving DecidableEq

/-- The argument-checking prefix of `main` (lines 52-55): on failure of
`checkUsage` it prints the usage message for `argv[0]` and returns
`EXIT_FAILURE`; otherwise execution proceeds with the parsed count. -/
def mainArgPhase (argv : List String) : ArgOutcome :=
  match checkUsage argv with
  | some n => ArgOutcome.proceed n
  | none => ArgOutcome.usageExit (usageMessage (argv.headD "")) EXIT_FAILURE

/-! ### Trace model of the `try` block (main.cpp lines 60-116)

The body of the `try` block is modelled as a generator of event traces.
Everything the external AFU/driver contributes (buffer addresses, the
values successive reads of the done register return, the contents of the
output buffer once read back, the measured clock frequency, and whether
`SLEEP_WHILE_WAITING` was defined in config.h) is supplied by an `Env`.
The two `while` loops and the polling loop are modelled with explicit
fuel, so that non-termination of a loop is visible as the absence of any
fuel producing a result. -/

/-- The MMIO registers named in main.cpp (offsets defined in config.h). -/
inductive Reg
  | MMIO_RD_ADDR
  | MMIO_WR_ADDR
  | MMIO_SIZE
  | MMIO_GO
  | MMIO_DONE
  deriving DecidableEq

/-- The two buffers allocated by `main`. -/
inductive Buf
  | input
  | output
  deriving DecidableEq

/-- Observable actions of the `try` block, in program order. -/
inductive Event
  | mmioWrite (r : Reg) (v : Nat)
  | mmioRead (r : Reg) (v : Nat)
  | bufWrite (b : Buf) (i v : Nat)
  | bufRead (b : Buf) (i v : Nat)
  | print (v : Nat)
  | clockPrint (v : Nat)
  | successMsg
  | alloc (b : Buf) (count : Nat)
  | free (b : Buf)
  | sleep
  deriving DecidableEq

/-- Behaviour of the external AFU/driver as observed by `main`:
`done k` is the value the `(k+1)`-st read of `MMIO_DONE` returns,
`out i` the value of `output[i]` when it is read back for printing. -/
structure Env where
  inAddr : Nat
  outAddr : Nat
  freq : Nat
  sleepEnabled : Bool
  done : Nat → Nat
  out : Nat → Nat

/-- Body of the input-initialization loop (lines 75-77): `input[i] = 1`. -/
def inBody (i : Nat) : List Event := [Event.bufWrite Buf.input i 1]

/-- Body of the output-initialization loop (lines 79-81): `output[i] = 0`. -/
def outInitBody (i : Nat) : List Event := [Event.bufWrite Buf.output i 0]

/-- Body of the printing loop (lines 105-107): read `output[i]`, print it. -/
def printBody (env : Env) (i : Nat) : List Event :=
  [Event.bufRead Buf.output i (env.out i), Event.print (env.out i)]

/-- The common shape of the three `for (unsigned i=0; i < bound; i++)`
loops of `main`.  The counter `i` is a C `unsigned`, so the increment
wraps modulo `2^32`, while `bound` (`num_inputs` or `num_outputs`) is an
`unsigned long`; in the comparison `i` is converted to `unsigned long`,
i.e. compared at its own value.  Fuelled: `none` means the loop did not
finish within `fuel` iterations. -/
def loop32 (bound : Nat) (body : Nat → List Event) : Nat → Nat → Option (List Event)
  | 0, _ => none
  | fuel + 1, i =>
    if i < bound then
      (loop32 bound body fuel ((i + 1) % U32)).map (fun t => body i ++ t)
    else
      some []

/-- The optional sleep between polls (`#ifdef SLEEP_WHILE_WAITING`,
lines 99-101). -/
def sleepEvents (env : Env) : List Event :=
  if env.sleepEnabled then [Event.sleep] else []

/-- The completion wait `while (afu.read(MMIO_DONE) == 0)` (lines
98-103), fuelled; `k` counts the reads already performed. -/
def pollLoop (env : Env) : Nat → Nat → Option (List Event)
  | 0, _ => none
  | fuel + 1, k =>
    if env.done k = 0 then
      (pollLoop env fuel (k + 1)).map
        (fun t => Event.mmioRead Reg.MMIO_DONE (env.done k) :: (sleepEvents env ++ t))
    else
      some [Event.mmioRead Reg.MMIO_DONE (env.done k)]

/-- The value written to `MMIO_SIZE` (lines 91-93):
`unsigned total_bytes = num_inputs*sizeof(unsigned long)` truncates the
byte count to 32 bits; `ceil((float)total_bytes / (float)AFU::CL_BYTES)`
with `AFU::CL_BYTES = 64` (the CCI-P cache-line size used by the AFU
wrapper, which is not part of this file).  For every `num_inputs` that
is a multiple of 128 the truncated byte count is a multiple of 1024 and
below `2^32`, hence exactly representable as a `float` (mantissa below
`2^24` after dividing out `2^10`), and dividing an exact `float` by the
power of two `64.0f` is again exact, so `ceil` is the identity and the
whole floating-point computation equals this exact ceiling division. -/
def num_cls (num_inputs : Nat) : Nat :=
  (num_inputs * 8 % U32 + 63) / 64

/-- The transfer size the spec describes: the exact ceiling of
`num_inputs * sizeof(unsigned long)` bytes divided by `AFU::CL_BYTES = 64`
cache-line bytes, with no truncation.  This definition follows the
spec's words and is compared against `num_cls`, which follows the code. -/
def exact_cls (num_inputs : Nat) : Nat :=
  (num_inputs * 8 + 63) / 64

/-- The body of the `try` block (lines 60-116) as a fuelled trace
generator: measured-clock print, the two allocations, the two
initialization loops, the four register writes, the polling loop, the
printing loop, the two frees and the success message.  `none` means some
loop failed to finish within `fuel` iterations. -/
def runMain (env : Env) (num_inputs fuel : Nat) : Option (List Event) :=
  let num_outputs := num_inputs / 16
  (loop32 num_inputs inBody fuel 0).bind (fun t1 =>
  (loop32 num_outputs outInitBody fuel 0).bind (fun t2 =>
  (pollLoop env fuel 0).bind (fun t3 =>
  (loop32 num_outputs (printBody env) fuel 0).map (fun t4 =>
    [Event.clockPrint env.freq,
     Event.alloc Buf.input num_inputs,
     Event.alloc Buf.output num_outputs]
    ++ t1 ++ t2
    ++ [Event.mmioWrite Reg.MMIO_RD_ADDR env.inAddr,
        Event.mmioWrite Reg.MMIO_WR_ADDR env.outAddr,
        Event.mmioWrite Reg.MMIO_SIZE (num_cls num_inputs),
        Event.mmioWrite Reg.MMIO_GO 1]
    ++ t3 ++ t4
    ++ [Event.free Buf.input, Event.free Buf.output, Event.successMsg]))))

/-- The program never reaches a completed run: no amount of fuel makes
the trace generator finish. -/
def mainDiverges (env : Env) (num_inputs : Nat) : Prop :=
  ∀ fuel, runMain env num_inputs fuel = none

/-! ### Closed forms of the loop traces -/

/-- Closed form of a finished counting loop: the concatenation of
`body i`, `body (i+1)`, ..., `body (i+m-1)`. -/
def loopTrace (body : Nat → List Event) (i : Nat) : Nat → List Event
  | 0 => []
  | m + 1 => body i ++ loopTrace body (i + 1) m

/-- Closed form of a finished polling loop starting at read index `j`:
`m` reads that return 0 (each followed by the optional sleep) and one
final read whose value is `env.done (j + m)`. -/
def pollTraceFrom (env : Env) (j : Nat) : Nat → List Event
  | 0 => [Event.mmioRead Reg.MMIO_DONE (env.done j)]
  | m + 1 =>
    Event.mmioRead Reg.MMIO_DONE (env.done j) ::
      (sleepEvents env ++ pollTraceFrom env (j + 1) m)

/-- Events of the `try` block preceding the write of `MMIO_GO`. -/
def preTrace (env : Env) (n : Nat) : List Event :=
  Event.clockPrint env.freq ::
  Event.alloc Buf.input n ::
  Event.alloc Buf.output (n / 16) ::
  (loopTrace inBody 0 n ++ loopTrace outInitBody 0 (n / 16)
   ++ [Event.mmioWrite Reg.MMIO_RD_ADDR env.inAddr,
       Event.mmioWrite Reg.MMIO_WR_ADDR env.outAddr,
       Event.mmioWrite Reg.MMIO_SIZE (num_cls n)])

/-- Closed form of the whole trace of a completed run in which the
`(k+1)`-st read of `MMIO_DONE` is the first to return nonzero. -/
def mainTrace (env : Env) (n k : Nat) : List Event :=
  preTrace env n ++
  Event.mmioWrite Reg.MMIO_GO 1 ::
  (pollTraceFrom env 0 k ++
   (loopTrace (printBody env) 0 (n / 16) ++
    [Event.free Buf.input, Event.free Buf.output, Event.successMsg]))

/-! ### Event predicates and auxiliary definitions used by the theorems -/

/-- Recognizes a write to the output buffer (an initialization of an
output element). -/
def isOutInit : Event → Bool
  | Event.bufWrite Buf.output _ _ => true
  | _ => false

/-- Recognizes the printing of an output value (the `cout << output[i]`
of lines 105-107; the clock-frequency and success messages are distinct
events). -/
def isPrintEvent : Event → Bool
  | Event.print _ => true
  | _ => false

/-- Recognizes a write to an MMIO register. -/
def isMmioWriteEvent : Event → Bool
  | Event.mmioWrite _ _ => true
  | _ => false

/-- Modelled from the spec: the accelerator RTL (not under `sw/`)
aggregates sixteen inputs into each output, so with every input element
set to 1 each output element read back equals 16 ("all output values
equal the fixed hardware-determined aggregation of sixteen 1-valued
inputs (value 16, assuming unmodified config)"). -/
def hwAggregate (env : Env) (n : Nat) : Prop :=
  ∀ i < n / 16, env.out i = 16

/-- A concrete driver behaviour used to instantiate the theorems: the
first read of `MMIO_DONE` returns 0, every later read returns 1, and
every output element reads back as 16. -/
def envW : Env where
  inAddr := 4096
  outAddr := 8192
  freq := 200000000
  sleepEnabled := false
  done := fun k => if k = 0 then 0 else 1
  out := fun _ => 16

/-- The trace of the completed run of the program on 128 inputs under
`envW`. -/
def tW : List Event :=
  (runMain envW 128 200).getD []

/-! ### The catch handlers (main.cpp lines 118-140)

`fpga_result` is the OPAE error enumeration from `<opae/types_enum.h>`
(an external vendor header); `fpgaErrStr` is the OPAE function mapping a
result code to its default error string.  Both are external to this
repository, so the enumeration is embedded by its documented members and
the string function is kept as a parameter. -/

/-- The OPAE `fpga_result` enumeration. -/
inductive FpgaResult
  | FPGA_OK
  | FPGA_INVALID_PARAM
  | FPGA_BUSY
  | FPGA_EXCEPTION
  | FPGA_NOT_FOUND
  | FPGA_NO_MEMORY
  | FPGA_NOT_SUPPORTED
  | FPGA_NO_DRIVER
  | FPGA_NO_DAEMON
  | FPGA_NO_ACCESS
  | FPGA_RECONF_ERROR
  deriving DecidableEq

/-- How the `try` block ends: normally, or with one of the exception
kinds the catch clauses of `main` handle (`fpga_result`, a
`runtime_error`, the OPAE `no_driver` exception). -/
inductive TryOutcome
  | success
  | throwFpga (e : FpgaResult)
  | throwRuntime (msg : String)
  | throwNoDriver
  deriving DecidableEq

/-- The message printed to `cerr` by the catch clauses of `main`
(lines 118-140), given OPAE's `fpgaErrStr` and the accelerator UUID
`AFU_ACCEL_UUID` (from the auto-generated `afu_json_info.h`); `none`
for a successful run, which prints no error. -/
def errMessage (errStr : FpgaResult → String) (uuid : String) : TryOutcome → Option String
  | TryOutcome.success => none
  | TryOutcome.throwFpga FpgaResult.FPGA_BUSY => some "ERROR: All FPGAs busy."
  | TryOutcome.throwFpga FpgaResult.FPGA_NOT_FOUND =>
      some ("ERROR: FPGA with accelerator " ++ uuid ++ " not found.")
  | TryOutcome.throwFpga e => some ("ERROR: " ++ errStr e)
  | TryOutcome.throwRuntime msg => some msg
  | TryOutcome.throwNoDriver => some "ERROR: No FPGA driver found."

/-- The exit status of `main` as a function of how the `try` block
ends: `EXIT_SUCCESS` is returned inside the `try` block; every caught
exception falls through to the final `return EXIT_FAILURE`.  Each catch
clause runs exactly once and performs no retry. -/
def mainExit : TryOutcome → Nat
  | TryOutcome.success => EXIT_SUCCESS
  | _ => EXIT_FAILURE

/-! ### Lemmas about the fuelled loops -/

theorem loop32_succ (bound : Nat) (body : Nat → List Event) (fuel i : Nat) :
    loop32 bound body (fuel + 1) i =
      if i < bound then
        (loop32 bound body fuel ((i + 1) % U32)).map (fun t => body i ++ t)
      else some [] := rfl

theorem pollLoop_succ (env : Env) (fuel k : Nat) :
    pollLoop env (fuel + 1) k =
      if env.done k = 0 then
        (pollLoop env fuel (k + 1)).map
          (fun t => Event.mmioRead Reg.MMIO_DONE (env.done k) :: (sleepEvents env ++ t))
      else some [Event.mmioRead Reg.MMIO_DONE (env.done k)] := rfl

theorem loop32_none_of_ge (bound : Nat) (body : Nat → List Event) (hb : U32 ≤ bound) :
    ∀ fuel i, i < U32 → loop32 bound body fuel i = none := by
  intro fuel
  induction fuel with
  | zero => intro i _; rfl
  | succ fuel ih =>
    intro i hi
    have hcond : i < bound := lt_of_lt_of_le hi hb
    have hrec := ih ((i + 1) % U32) (Nat.mod_lt _ (by decide))
    rw [loop32_succ, if_pos hcond, hrec]
    rfl

theorem loop32_succ_mono (bound : Nat) (body : Nat → List Event) :
    ∀ fuel i t, loop32 bound body fuel i = some t →
      loop32 bound body (fuel + 1) i = some t := by
  intro fuel
  induction fuel with
  | zero => intro i t h; exact absurd h (by simp [loop32])
  | succ fuel ih =>
    intro i t h
    rw [loop32_succ] at h
    rw [loop32_succ]
    by_cases hi : i < bound
    · rw [if_pos hi] at h ⊢
      rcases Option.map_eq_some'.1 h with ⟨t', ht', rfl⟩
      rw [ih _ _ ht']
      rfl
    · rw [if_neg hi] at h ⊢
      exact h

theorem loop32_le_mono (bound : Nat) (body : Nat → List Event) {fuel fuel' : Nat}
    (hle : fuel ≤ fuel') :
    ∀ i t, loop32 bound body fuel i = some t → loop32 bound body fuel' i = some t := by
  obtain ⟨d, rfl⟩ := Nat.exists_eq_add_of_le hle
  clear hle
  induction d with
  | zero => intro i t h; exact h
  | succ d ih =>
    intro i t h
    have hstep : fuel + (d + 1) = (fuel + d) + 1 := by omega
    rw [hstep]
    exact loop32_succ_mono bound body _ _ _ (ih i t h)

theorem loop32_run (bound : Nat) (body : Nat → List Event) (hb : bound < U32) :
    ∀ m i, i + m = bound → loop32 bound body (m + 1) i = some (loopTrace body i m) := by
  intro m
  induction m with
  | zero =>
    intro i hi
    have hni : ¬ i < bound := by omega
    rw [loop32_succ, if_neg hni]
    rfl
  | succ m ih =>
    intro i hi
    have hcond : i < bound := by omega
    have hmod : (i + 1) % U32 = i + 1 := Nat.mod_eq_of_lt (by omega)
    have hrec := ih (i + 1) (by omega)
    rw [loop32_succ, if_pos hcond, hmod, hrec]
    rfl

theorem loop32_some {bound : Nat} {body : Nat → List Event} {fuel : Nat} {t : List Event}
    (h : loop32 bound body fuel 0 = some t) :
    bound < U32 ∧ t = loopTrace body 0 bound := by
  rcases Nat.lt_or_ge bound U32 with hb | hb
  · refine ⟨hb, ?_⟩
    have h1 := loop32_run bound body hb bound 0 (by omega)
    have h2 := loop32_le_mono bound body (le_max_left fuel (bound + 1)) 0 t h
    have h3 := loop32_le_mono bound body (le_max_right fuel (bound + 1)) 0 _ h1
    rw [h2] at h3
    exact (Option.some_inj.1 h3)
  · exact absurd h (by simp [loop32_none_of_ge bound body hb fuel 0 (by decide)])

theorem pollLoop_succ_mono (env : Env) :
    ∀ fuel k t, pollLoop env fuel k = some t → pollLoop env (fuel + 1) k = some t := by
  intro fuel
  induction fuel with
  | zero => intro k t h; exact absurd h (by simp [pollLoop])
  | succ fuel ih =>
    intro k t h
    rw [pollLoop_succ] at h
    rw [pollLoop_succ]
    by_cases hd : env.done k = 0
    · rw [if_pos hd] at h ⊢
      rcases Option.map_eq_some'.1 h with ⟨t', ht', rfl⟩
      rw [ih _ _ ht']
      rfl
    · rw [if_neg hd] at h ⊢
      exact h

theorem pollLoop_le_mono (env : Env) {fuel fuel' : Nat} (hle : fuel ≤ fuel') :
    ∀ k t, pollLoop env fuel k = some t → pollLoop env fuel' k = some t := by
  obtain ⟨d, rfl⟩ := Nat.exists_eq_add_of_le hle
  clear hle
  induction d with
  | zero => intro k t h; exact h
  | succ d ih =>
    intro k t h
    have hstep : fuel + (d + 1) = (fuel + d) + 1 := by omega
    rw [hstep]
    exact pollLoop_succ_mono env _ _ _ (ih k t h)

theorem pollLoop_run (env : Env) :
    ∀ m j, (∀ l < m, env.done (j + l) = 0) → env.done (j + m) ≠ 0 →
      pollLoop env (m + 1) j = some (pollTraceFrom env j m) := by
  intro m
  induction m with
  | zero =>
    intro j _ hnz
    have hj : ¬ env.done j = 0 := by simpa using hnz
    rw [pollLoop_succ, if_neg hj]
    rfl
  | succ m ih =>
    intro j hz hnz
    have hj : env.done j = 0 := by simpa using hz 0 (by omega)
    have hz' : ∀ l < m, env.done (j + 1 + l) = 0 := by
      intro l hl
      have hc := hz (l + 1) (by omega)
      have he : j + (l + 1) = j + 1 + l := by omega
      rwa [he] at hc
    have hnz' : env.done (j + 1 + m) ≠ 0 := by
      have he : j + (m + 1) = j + 1 + m := by omega
      rwa [he] at hnz
    have hrec := ih (j + 1) hz' hnz'
    rw [pollLoop_succ, if_pos hj, hrec]
    rfl

theorem pollLoop_some (env : Env) :
    ∀ fuel j t, pollLoop env fuel j = some t →
      ∃ m, (∀ l < m, env.done (j + l) = 0) ∧ env.done (j + m) ≠ 0 ∧
        t = pollTraceFrom env j m := by
  intro fuel
  induction fuel with
  | zero => intro j t h; exact absurd h (by simp [pollLoop])
  | succ fuel ih =>
    intro j t h
    rw [pollLoop_succ] at h
    by_cases hd : env.done j = 0
    · rw [if_pos hd] at h
      rcases Option.map_eq_some'.1 h with ⟨t', ht', rfl⟩
      rcases ih (j + 1) t' ht' with ⟨m, hz, hnz, rfl⟩
      refine ⟨m + 1, ?_, ?_, ?_⟩
      · intro l hl
        cases l with
        | zero => simpa using hd
        | succ l =>
          have hc := hz l (by omega)
          have he : j + (l + 1) = j + 1 + l := by omega
          rwa [he]
      · have he : j + (m + 1) = j + 1 + m := by omega
        rw [he]
        exact hnz
      · simp [pollTraceFrom, hd]
    · rw [if_neg hd, Option.some_inj] at h
      exact ⟨0, by omega, by simpa using hd, by simp [pollTraceFrom, ← h]⟩

theorem pollLoop_none (env : Env) (hall : ∀ k, env.done k = 0) :
    ∀ fuel j, pollLoop env fuel j = none := by
  intro fuel
  induction fuel with
  | zero => intro j; rfl
  | succ fuel ih =>
    intro j
    rw [pollLoop_succ, if_pos (hall j), ih (j + 1)]
    rfl

/-! ### Closed-form and structural lemmas about the traces -/

theorem runMain_some {env : Env} {n fuel : Nat} {t : List Event}
    (h : runMain env n fuel = some t) :
    n < U32 ∧ ∃ k, (∀ j < k, env.done j = 0) ∧ env.done k ≠ 0 ∧
      t = mainTrace env n k := by
  unfold runMain at h
  simp only [Option.bind_eq_some, Option.map_eq_some'] at h
  obtain ⟨t1, h1, t2, h2, t3, h3, t4, h4, rfl⟩ := h
  obtain ⟨hn, rfl⟩ := loop32_some h1
  obtain ⟨-, rfl⟩ := loop32_some h2
  obtain ⟨-, rfl⟩ := loop32_some h4
  obtain ⟨k, hz, hnz, rfl⟩ := pollLoop_some env fuel 0 t3 h3
  refine ⟨hn, k, by simpa using hz, by simpa using hnz, ?_⟩
  simp [mainTrace, preTrace]

theorem loopTrace_mem (body : Nat → List Event) :
    ∀ m j x, x ∈ loopTrace body j m ↔ ∃ l, l < m ∧ x ∈ body (j + l) := by
  intro m
  induction m with
  | zero => intro j x; simp [loopTrace]
  | succ m ih =>
    intro j x
    simp only [loopTrace, List.mem_append, ih]
    constructor
    · rintro (hx | ⟨l, hl, hx⟩)
      · exact ⟨0, by omega, by simpa using hx⟩
      · refine ⟨l + 1, by omega, ?_⟩
        have he : j + (l + 1) = j + 1 + l := by omega
        rwa [he]
    · rintro ⟨l, hl, hx⟩
      cases l with
      | zero => exact Or.inl (by simpa using hx)
      | succ l =>
        refine Or.inr ⟨l, by omega, ?_⟩
        have he : j + (l + 1) = j + 1 + l := by omega
        rwa [he] at hx

theorem loopTrace_countP (p : Event → Bool) (body : Nat → List Event) (c : Nat)
    (hc : ∀ i, (body i).countP p = c) :
    ∀ m j, (loopTrace body j m).countP p = c * m := by
  intro m
  induction m with
  | zero => intro j; simp [loopTrace]
  | succ m ih =>
    intro j
    simp only [loopTrace, List.countP_append, hc, ih]
    ring

theorem loopTrace_countP_zero {p : Event → Bool} {body : Nat → List Event}
    (hb : ∀ i e, e ∈ body i → p e = false) :
    ∀ m j, (loopTrace body j m).countP p = 0 := by
  intro m j
  refine List.countP_eq_zero.2 ?_
  intro e he
  rcases (loopTrace_mem body m j e).1 he with ⟨l, -, hl⟩
  simp [hb _ e hl]

theorem loopTrace_filter_nil {p : Event → Bool} {body : Nat → List Event}
    (hb : ∀ i e, e ∈ body i → p e = false) :
    ∀ m j, (loopTrace body j m).filter p = [] := by
  intro m j
  refine List.filter_eq_nil_iff.2 ?_
  intro e he
  rcases (loopTrace_mem body m j e).1 he with ⟨l, -, hl⟩
  simp [hb _ e hl]

theorem loopTrace_length {body : Nat → List Event} (hb : ∀ i, (body i).length = 1) :
    ∀ m j, (loopTrace body j m).length = m := by
  intro m
  induction m with
  | zero => intro j; rfl
  | succ m ih =>
    intro j
    simp only [loopTrace, List.length_append, hb, ih]
    omega

theorem pollTraceFrom_mem (env : Env) :
    ∀ m j x, x ∈ pollTraceFrom env j m →
      (∃ v, x = Event.mmioRead Reg.MMIO_DONE v) ∨ x = Event.sleep := by
  intro m
  induction m with
  | zero =>
    intro j x hx
    exact Or.inl ⟨env.done j, by simpa [pollTraceFrom] using hx⟩
  | succ m ih =>
    intro j x hx
    simp only [pollTraceFrom, List.mem_cons, List.mem_append] at hx
    rcases hx with rfl | hx | hx
    · exact Or.inl ⟨env.done j, rfl⟩
    · unfold sleepEvents at hx
      cases hb : env.sleepEnabled
      · simp [hb] at hx
      · simp only [hb, if_true, List.mem_singleton] at hx
        exact Or.inr hx
    · exact ih (j + 1) x hx

theorem pollTraceFrom_countP_zero {p : Event → Bool} (env : Env)
    (hr : ∀ v, p (Event.mmioRead Reg.MMIO_DONE v) = false)
    (hs : p Event.sleep = false) :
    ∀ m j, (pollTraceFrom env j m).countP p = 0 := by
  intro m j
  refine List.countP_eq_zero.2 ?_
  intro e he
  rcases pollTraceFrom_mem env m j e he with ⟨v, rfl⟩ | rfl
  · simp [hr]
  · simp [hs]

theorem pollTraceFrom_filter_nil {p : Event → Bool} (env : Env)
    (hr : ∀ v, p (Event.mmioRead Reg.MMIO_DONE v) = false)
    (hs : p Event.sleep = false) :
    ∀ m j, (pollTraceFrom env j m).filter p = [] := by
  intro m j
  refine List.filter_eq_nil_iff.2 ?_
  intro e he
  rcases pollTraceFrom_mem env m j e he with ⟨v, rfl⟩ | rfl
  · simp [hr]
  · simp [hs]

/-! ### The claims -/

/-- C1: the program proceeds past argument checking iff exactly one
positional argument is supplied (`argc == 2`) and it parses (by
`strtol`, consuming the whole string) as a positive integer that is a
multiple of 128; in every other case it prints the usage message and
returns `EXIT_FAILURE = 1`. -/
theorem c1_argument_gate (argv : List String) :
    (∀ n, mainArgPhase argv = ArgOutcome.proceed n ↔
      (argv.length = 2 ∧ ∃ s, argv.get? 1 = some s ∧ (strtol10 s.data).2 = [] ∧
        0 < (strtol10 s.data).1 ∧ (strtol10 s.data).1.toNat = n ∧ n % 128 = 0)) ∧
    ((∃ n, mainArgPhase argv = ArgOutcome.proceed n) ∨
      mainArgPhase argv = ArgOutcome.usageExit (usageMessage (argv.headD "")) EXIT_FAILURE) := by
  rcases argv with - | ⟨a, - | ⟨b, - | ⟨c, rest⟩⟩⟩
  · refine ⟨?_, Or.inr rfl⟩
    intro n
    simp [mainArgPhase, checkUsage]
  · refine ⟨?_, Or.inr rfl⟩
    intro n
    simp [mainArgPhase, checkUsage]
  · by_cases hok : (strtol10 b.data).2 = [] ∧ 0 < (strtol10 b.data).1
    · have hspi : stringToPositiveInt b.data = Except.ok (strtol10 b.data).1.toNat := by
        simp [stringToPositiveInt, hok]
      by_cases h128 : (strtol10 b.data).1.toNat % 128 = 0
      · have hproc : mainArgPhase [a, b] = ArgOutcome.proceed (strtol10 b.data).1.toNat := by
          simp [mainArgPhase, checkUsage, hspi, h128]
        refine ⟨?_, Or.inl ⟨_, hproc⟩⟩
        intro n
        constructor
        · intro h
          rw [hproc] at h
          injection h with hn
          subst hn
          exact ⟨rfl, b, rfl, hok.1, hok.2, rfl, h128⟩
        · rintro ⟨-, s, hs, -, -, h3, -⟩
          simp only [List.get?] at hs
          injection hs with hs
          subst hs
          rw [hproc, h3]
      · have hnone : mainArgPhase [a, b] =
            ArgOutcome.usageExit (usageMessage a) EXIT_FAILURE := by
          simp [mainArgPhase, checkUsage, hspi, h128]
        refine ⟨?_, Or.inr (by simpa using hnone)⟩
        intro n
        constructor
        · intro h
          rw [hnone] at h
          exact absurd h (by simp)
        · rintro ⟨-, s, hs, -, -, h3, h4⟩
          simp only [List.get?] at hs
          injection hs with hs
          subst hs
          rw [h3] at h128
          exact absurd h4 h128
    · have hspi : stringToPositiveInt b.data =
          Except.error "String is not a positive integer." := by
        simp [stringToPositiveInt, hok]
      have hnone : mainArgPhase [a, b] =
          ArgOutcome.usageExit (usageMessage a) EXIT_FAILURE := by
        simp [mainArgPhase, checkUsage, hspi]
      refine ⟨?_, Or.inr (by simpa using hnone)⟩
      intro n
      constructor
      · intro h
        rw [hnone] at h
        exact absurd h (by simp)
      · rintro ⟨-, s, hs, h1, h2, -, -⟩
        simp only [List.get?] at hs
        injection hs with hs
        subst hs
        exact (hok ⟨h1, h2⟩).elim
  · have hc : checkUsage (a :: b :: c :: rest) = none := rfl
    have hnone : mainArgPhase (a :: b :: c :: rest) =
        ArgOutcome.usageExit (usageMessage a) EXIT_FAILURE := by
      simp [mainArgPhase, hc]
    refine ⟨?_, Or.inr (by simpa using hnone)⟩
    intro n
    constructor
    · intro h
      rw [hnone] at h
      exact absurd h (by simp)
    · rintro ⟨hlen, -⟩
      simp only [List.length_cons] at hlen
      omega

/-- C8: `stringToPositiveInt` throws exactly when `strtol` does not
consume the whole string or yields a non-positive value; an accepted
string returns the (strictly positive) `strtol` value, so leading
whitespace and a leading `+` are accepted, values beyond `LONG_MAX`
are clamped to `LONG_MAX` and accepted, and 0 is never returned. -/
theorem c8_stringToPositiveInt (s : List Char) :
    (stringToPositiveInt s = Except.error "String is not a positive integer." ↔
      ¬((strtol10 s).2 = [] ∧ 0 < (strtol10 s).1)) ∧
    (∀ n, stringToPositiveInt s = Except.ok n → 0 < n ∧ (n : Int) = (strtol10 s).1) ∧
    stringToPositiveInt " 128".data = Except.ok 128 ∧
    stringToPositiveInt "+128".data = Except.ok 128 ∧
    stringToPositiveInt "99999999999999999999".data = Except.ok 9223372036854775807 := by
  refine ⟨?_, ?_, by rfl, by rfl, by rfl⟩
  · by_cases h : (strtol10 s).2 = [] ∧ 0 < (strtol10 s).1
    · simp [stringToPositiveInt, h]
    · simp [stringToPositiveInt, h]
  · intro n hn
    by_cases h : (strtol10 s).2 = [] ∧ 0 < (strtol10 s).1
    · simp only [stringToPositiveInt, if_pos h, Except.ok.injEq] at hn
      have h2 := h.2
      omega
    · simp [stringToPositiveInt, h] at hn

/-- Witness for C8 at the concrete accepted input `" 128"`. -/
theorem c8_witness : 0 < 128 ∧ ((128 : Nat) : Int) = (strtol10 " 128".data).1 :=
  (c8_stringToPositiveInt " 128".data).2.1 128 (by rfl)

/-- C2 counterexample: `num_inputs = 2^29` is a validated input
(positive, multiple of 128), but the 32-bit truncation in
`unsigned total_bytes = num_inputs*sizeof(unsigned long)` makes the code
write `num_cls = 0` to `MMIO_SIZE` while the exact ceiling of the byte
count over the cache-line size is `2^26`. -/
theorem c2_counterexample :
    (536870912 : Nat) % 128 = 0 ∧ 0 < (536870912 : Nat) ∧
    num_cls 536870912 = 0 ∧ exact_cls 536870912 = 67108864 ∧
    num_cls 536870912 ≠ exact_cls 536870912 := by
  refine ⟨by decide, by decide, by decide, by decide, by decide⟩

/-- C2 (amended): for every validated `num_inputs` whose byte count
`num_inputs * sizeof(unsigned long)` fits in the 32-bit `unsigned
total_bytes`, the value written to `MMIO_SIZE` is the exact ceiling of
the byte count divided by `AFU::CL_BYTES`, i.e. `num_inputs / 8`. -/
theorem c2_size_register (env : Env) (n fuel : Nat) (t : List Event)
    (h128 : n % 128 = 0) (hbytes : n * 8 < U32) (h : runMain env n fuel = some t) :
    Event.mmioWrite Reg.MMIO_SIZE (exact_cls n) ∈ t ∧ exact_cls n = n / 8 := by
  obtain ⟨hn, k, hz, hnz, rfl⟩ := runMain_some h
  have he : num_cls n = exact_cls n := by
    unfold num_cls exact_cls
    rw [Nat.mod_eq_of_lt hbytes]
  have hdiv : exact_cls n = n / 8 := by
    unfold exact_cls
    omega
  refine ⟨?_, hdiv⟩
  rw [← he]
  simp [mainTrace, preTrace]

set_option maxRecDepth 4000 in
/-- Witness for C2 (amended) at `num_inputs = 128` under `envW`. -/
theorem c2_witness :
    Event.mmioWrite Reg.MMIO_SIZE (exact_cls 128) ∈ tW ∧ exact_cls 128 = 128 / 8 :=
  c2_size_register envW 128 200 tW (by decide) (by decide) (by rfl)

/-- C9: each `for (unsigned i=0; ...)` loop compares its 32-bit counter
against a 64-bit bound, so it can finish iff the bound is below `2^32`;
when `num_inputs < 2^32` the input loop runs exactly `num_inputs`
iterations, each setting one input element to 1, and when
`num_inputs ≥ 2^32` no amount of fuel finishes it. -/
theorem c9_loop_counter (n : Nat) :
    (∀ (bound : Nat) (body : Nat → List Event),
        (∃ fuel t, loop32 bound body fuel 0 = some t) ↔ bound < U32) ∧
    (n < U32 →
      loop32 n inBody (n + 1) 0 = some (loopTrace inBody 0 n) ∧
      (loopTrace inBody 0 n).length = n ∧
      (∀ i < n, Event.bufWrite Buf.input i 1 ∈ loopTrace inBody 0 n) ∧
      (∀ e ∈ loopTrace inBody 0 n, ∃ i, i < n ∧ e = Event.bufWrite Buf.input i 1)) ∧
    (U32 ≤ n → ∀ fuel, loop32 n inBody fuel 0 = none) := by
  refine ⟨?_, ?_, ?_⟩
  · intro bound body
    constructor
    · rintro ⟨fuel, t, h⟩
      exact (loop32_some h).1
    · intro hb
      exact ⟨bound + 1, loopTrace body 0 bound, loop32_run bound body hb bound 0 (by omega)⟩
  · intro hn
    refine ⟨loop32_run n inBody hn n 0 (by omega),
            @loopTrace_length inBody (fun i => rfl) n 0, ?_, ?_⟩
    · intro i hi
      exact (loopTrace_mem inBody n 0 _).2 ⟨i, hi, by simp [inBody]⟩
    · intro e he
      rcases (loopTrace_mem inBody n 0 e).1 he with ⟨l, hl, hx⟩
      exact ⟨l, hl, by simpa [inBody] using hx⟩
  · intro hge fuel
    exact loop32_none_of_ge n inBody hge fuel 0 (by decide)

/-- Witness for C9 with the small bound 2. -/
theorem c9_witness :
    loop32 2 inBody 3 0 = some (loopTrace inBody 0 2) ∧
    (loopTrace inBody 0 2).length = 2 ∧
    (∀ i < 2, Event.bufWrite Buf.input i 1 ∈ loopTrace inBody 0 2) ∧
    (∀ e ∈ loopTrace inBody 0 2, ∃ i, i < 2 ∧ e = Event.bufWrite Buf.input i 1) :=
  (c9_loop_counter 2).2.1 (by decide)

/-- C6: the completion wait terminates iff some read of `MMIO_DONE`
returns a nonzero value, and a finished wait consists of nothing but
reads of `MMIO_DONE` and the optional fixed sleeps between them. -/
theorem c6_poll_busywait (env : Env) :
    ((∃ fuel t, pollLoop env fuel 0 = some t) ↔ (∃ k, env.done k ≠ 0)) ∧
    (∀ fuel t, pollLoop env fuel 0 = some t →
      ∃ k, (∀ j < k, env.done j = 0) ∧ env.done k ≠ 0 ∧ t = pollTraceFrom env 0 k ∧
        ∀ e ∈ t, (∃ v, e = Event.mmioRead Reg.MMIO_DONE v) ∨ e = Event.sleep) := by
  constructor
  · constructor
    · rintro ⟨fuel, t, h⟩
      rcases pollLoop_some env fuel 0 t h with ⟨m, -, hnz, -⟩
      exact ⟨m, by simpa using hnz⟩
    · rintro ⟨k, hk⟩
      have hex : ∃ j, env.done j ≠ 0 := ⟨k, hk⟩
      refine ⟨Nat.find hex + 1, pollTraceFrom env 0 (Nat.find hex), ?_⟩
      have h0 : ∀ l < Nat.find hex, env.done (0 + l) = 0 := by
        intro l hl
        have := Nat.find_min hex hl
        simpa using this
      have h1 : env.done (0 + Nat.find hex) ≠ 0 := by
        simpa using Nat.find_spec hex
      exact pollLoop_run env (Nat.find hex) 0 h0 h1
  · intro fuel t h
    rcases pollLoop_some env fuel 0 t h with ⟨m, hz, hnz, rfl⟩
    exact ⟨m, by simpa using hz, by simpa using hnz, rfl,
      fun e he => pollTraceFrom_mem env m 0 e he⟩

/-- Witness for C6: under `envW` the wait finishes with fuel 2 after one
zero read and one nonzero read. -/
theorem c6_witness :
    ∃ k, (∀ j < k, envW.done j = 0) ∧ envW.done k ≠ 0 ∧
      [Event.mmioRead Reg.MMIO_DONE 0, Event.mmioRead Reg.MMIO_DONE 1] =
        pollTraceFrom envW 0 k ∧
      ∀ e ∈ [Event.mmioRead Reg.MMIO_DONE 0, Event.mmioRead Reg.MMIO_DONE 1],
        (∃ v, e = Event.mmioRead Reg.MMIO_DONE v) ∨ e = Event.sleep :=
  (c6_poll_busywait envW).2 2 _ (by rfl)

/-- C7: every exception the catch clauses of `main` handle is mapped to
its short message — `FPGA_BUSY` to the busy message, `FPGA_NOT_FOUND`
to the not-found message naming the accelerator UUID, any other
`fpga_result` to the driver's error string, a missing driver to the
no-driver message — and in every non-success case `main` returns
`EXIT_FAILURE` after printing a single message, with no retry. -/
theorem c7_exception_mapping (errStr : FpgaResult → String) (uuid : String) :
    errMessage errStr uuid (TryOutcome.throwFpga FpgaResult.FPGA_BUSY) =
      some "ERROR: All FPGAs busy." ∧
    errMessage errStr uuid (TryOutcome.throwFpga FpgaResult.FPGA_NOT_FOUND) =
      some ("ERROR: FPGA with accelerator " ++ uuid ++ " not found.") ∧
    (∀ e : FpgaResult, e ≠ FpgaResult.FPGA_BUSY → e ≠ FpgaResult.FPGA_NOT_FOUND →
      errMessage errStr uuid (TryOutcome.throwFpga e) = some ("ERROR: " ++ errStr e)) ∧
    errMessage errStr uuid TryOutcome.throwNoDriver =
      some "ERROR: No FPGA driver found." ∧
    (∀ o : TryOutcome, o ≠ TryOutcome.success →
      mainExit o = EXIT_FAILURE ∧ (errMessage errStr uuid o).isSome = true) := by
  refine ⟨rfl, rfl, ?_, rfl, ?_⟩
  · intro e h1 h2
    cases e <;> first | rfl | exact absurd rfl h1 | exact absurd rfl h2
  · intro o ho
    cases o with
    | success => exact absurd rfl ho
    | throwFpga e => exact ⟨rfl, by cases e <;> rfl⟩
    | throwRuntime msg => exact ⟨rfl, rfl⟩
    | throwNoDriver => exact ⟨rfl, rfl⟩

/-- Witness for C7 at a generic `fpga_result` code and the no-driver
exception. -/
theorem c7_witness :
    (errMessage (fun _ => "code") "UUID" (TryOutcome.throwFpga FpgaResult.FPGA_NO_MEMORY) =
      some ("ERROR: " ++ (fun _ : FpgaResult => "code") FpgaResult.FPGA_NO_MEMORY)) ∧
    (mainExit TryOutcome.throwNoDriver = EXIT_FAILURE ∧
      (errMessage (fun _ => "code") "UUID" TryOutcome.throwNoDriver).isSome = true) :=
  ⟨(c7_exception_mapping (fun _ => "code") "UUID").2.2.1 FpgaResult.FPGA_NO_MEMORY
      (by decide) (by decide),
   (c7_exception_mapping (fun _ => "code") "UUID").2.2.2.2 TryOutcome.throwNoDriver
      (by decide)⟩

/-- C3 counterexample: `num_inputs = 2^32` is a validated input
(positive, multiple of 128) with `num_inputs / 16 = 2^28 ≠ 0`, but the
32-bit loop counter makes the input-initialization loop run forever, so
no run ever reaches the printing phase and nothing is printed. -/
theorem c3_counterexample :
    (4294967296 : Nat) % 128 = 0 ∧ (4294967296 : Nat) / 16 ≠ 0 ∧
    mainDiverges envW 4294967296 := by
  refine ⟨by decide, by decide, ?_⟩
  intro fuel
  unfold runMain
  rw [loop32_none_of_ge 4294967296 inBody (by decide) fuel 0 (by decide)]
  rfl

/-- C3 (amended): on every completed run (equivalently, whenever
`num_inputs < 2^32`), the number of outputs allocated, the number of
output elements initialized, and the number of output values printed
all equal `num_inputs / 16`. -/
theorem c3_output_counts (env : Env) (n fuel : Nat) (t : List Event)
    (h : runMain env n fuel = some t) :
    Event.alloc Buf.output (n / 16) ∈ t ∧
    t.countP isOutInit = n / 16 ∧
    t.countP isPrintEvent = n / 16 := by
  obtain ⟨hn, k, hz, hnz, rfl⟩ := runMain_some h
  have hin_o : (loopTrace inBody 0 n).countP isOutInit = 0 := by
    refine loopTrace_countP_zero ?_ n 0
    intro i e he
    simp only [inBody, List.mem_singleton] at he
    subst he
    rfl
  have hout_o : (loopTrace outInitBody 0 (n / 16)).countP isOutInit = n / 16 := by
    have hc := loopTrace_countP isOutInit outInitBody 1 (fun i => rfl) (n / 16) 0
    simpa using hc
  have hpr_o : (loopTrace (printBody env) 0 (n / 16)).countP isOutInit = 0 := by
    refine loopTrace_countP_zero ?_ (n / 16) 0
    intro i e he
    simp only [printBody, List.mem_cons, List.mem_singleton, List.not_mem_nil,
      or_false] at he
    rcases he with rfl | rfl <;> rfl
  have hpoll_o : (pollTraceFrom env 0 k).countP isOutInit = 0 :=
    pollTraceFrom_countP_zero env (fun v => rfl) rfl k 0
  have hin_p : (loopTrace inBody 0 n).countP isPrintEvent = 0 := by
    refine loopTrace_countP_zero ?_ n 0
    intro i e he
    simp only [inBody, List.mem_singleton] at he
    subst he
    rfl
  have hout_p : (loopTrace outInitBody 0 (n / 16)).countP isPrintEvent = 0 := by
    refine loopTrace_countP_zero ?_ (n / 16) 0
    intro i e he
    simp only [outInitBody, List.mem_singleton] at he
    subst he
    rfl
  have hpr_p : (loopTrace (printBody env) 0 (n / 16)).countP isPrintEvent = n / 16 := by
    have hc := loopTrace_countP isPrintEvent (printBody env) 1 (fun i => rfl) (n / 16) 0
    simpa using hc
  have hpoll_p : (pollTraceFrom env 0 k).countP isPrintEvent = 0 :=
    pollTraceFrom_countP_zero env (fun v => rfl) rfl k 0
  refine ⟨?_, ?_, ?_⟩
  · simp [mainTrace, preTrace]
  · simp [mainTrace, preTrace, List.countP_append, List.countP_cons,
      hin_o, hout_o, hpr_o, hpoll_o, isOutInit]
  · simp [mainTrace, preTrace, List.countP_append, List.countP_cons,
      hin_p, hout_p, hpr_p, hpoll_p, isPrintEvent]

set_option maxRecDepth 4000 in
/-- Witness for C3 (amended) at `num_inputs = 128` under `envW`. -/
theorem c3_witness :
    Event.alloc Buf.output (128 / 16) ∈ tW ∧
    tW.countP isOutInit = 128 / 16 ∧
    tW.countP isPrintEvent = 128 / 16 :=
  c3_output_counts envW 128 200 tW (by rfl)

/-- C4: on a completed run in which the hardware aggregates sixteen
1-valued inputs into each output (value 16), every printed output value
is 16; and before the start trigger is written every input element has
been set to 1 and every output element to 0. -/
theorem c4_outputs_sixteen (env : Env) (n fuel : Nat) (t : List Event)
    (h : runMain env n fuel = some t) (hw : hwAggregate env n) :
    (∀ v, Event.print v ∈ t → v = 16) ∧
    ∃ pre post, t = pre ++ Event.mmioWrite Reg.MMIO_GO 1 :: post ∧
      (∀ i < n, Event.bufWrite Buf.input i 1 ∈ pre) ∧
      (∀ i < n / 16, Event.bufWrite Buf.output i 0 ∈ pre) := by
  obtain ⟨hn, k, hz, hnz, rfl⟩ := runMain_some h
  constructor
  · intro v hv
    simp [mainTrace, preTrace, loopTrace_mem, inBody, outInitBody, printBody] at hv
    rcases hv with hv | ⟨l, hl, rfl⟩
    · rcases pollTraceFrom_mem env k 0 _ hv with ⟨v', heq⟩ | heq <;> simp at heq
    · exact hw l hl
  · refine ⟨preTrace env n, _, rfl, ?_, ?_⟩
    · intro i hi
      have hmem : Event.bufWrite Buf.input i 1 ∈ loopTrace inBody 0 n :=
        (loopTrace_mem inBody n 0 _).2 ⟨i, hi, by simp [inBody]⟩
      unfold preTrace
      simp [hmem]
    · intro i hi
      have hmem : Event.bufWrite Buf.output i 0 ∈ loopTrace outInitBody 0 (n / 16) :=
        (loopTrace_mem outInitBody (n / 16) 0 _).2 ⟨i, hi, by simp [outInitBody]⟩
      unfold preTrace
      simp [hmem]

set_option maxRecDepth 4000 in
/-- Witness for C4 at `num_inputs = 128` under `envW` (whose outputs
all read back 16). -/
theorem c4_witness :
    (∀ v, Event.print v ∈ tW → v = 16) ∧
    ∃ pre post, tW = pre ++ Event.mmioWrite Reg.MMIO_GO 1 :: post ∧
      (∀ i < 128, Event.bufWrite Buf.input i 1 ∈ pre) ∧
      (∀ i < 128 / 16, Event.bufWrite Buf.output i 0 ∈ pre) :=
  c4_outputs_sixteen envW 128 200 tW (by rfl) (fun i _ => rfl)

/-- C5: on every completed run the MMIO writes are, in order and with
no others, read-address, write-address, size, and a single go; all MMIO
reads are of the done register; and the trace decomposes as setup,
go-write, polling (reads of done only), output printing, then the two
frees — in particular the done register is never read before go is
written. -/
theorem c5_control_order (env : Env) (n fuel : Nat) (t : List Event)
    (h : runMain env n fuel = some t) :
    t.filter isMmioWriteEvent =
      [Event.mmioWrite Reg.MMIO_RD_ADDR env.inAddr,
       Event.mmioWrite Reg.MMIO_WR_ADDR env.outAddr,
       Event.mmioWrite Reg.MMIO_SIZE (num_cls n),
       Event.mmioWrite Reg.MMIO_GO 1] ∧
    (∀ r v, Event.mmioRead r v ∈ t → r = Reg.MMIO_DONE) ∧
    (∃ k, (∀ j < k, env.done j = 0) ∧ env.done k ≠ 0 ∧
      t = preTrace env n ++ Event.mmioWrite Reg.MMIO_GO 1 ::
          (pollTraceFrom env 0 k ++
           (loopTrace (printBody env) 0 (n / 16) ++
            [Event.free Buf.input, Event.free Buf.output, Event.successMsg])) ∧
      (∀ e ∈ preTrace env n, ∀ r v, e ≠ Event.mmioRead r v)) := by
  obtain ⟨hn, k, hz, hnz, rfl⟩ := runMain_some h
  have hf1 : (loopTrace inBody 0 n).filter isMmioWriteEvent = [] := by
    refine loopTrace_filter_nil ?_ n 0
    intro i e he
    simp only [inBody, List.mem_singleton] at he
    subst he
    rfl
  have hf2 : (loopTrace outInitBody 0 (n / 16)).filter isMmioWriteEvent = [] := by
    refine loopTrace_filter_nil ?_ (n / 16) 0
    intro i e he
    simp only [outInitBody, List.mem_singleton] at he
    subst he
    rfl
  have hf3 : (loopTrace (printBody env) 0 (n / 16)).filter isMmioWriteEvent = [] := by
    refine loopTrace_filter_nil ?_ (n / 16) 0
    intro i e he
    simp only [printBody, List.mem_cons, List.mem_singleton, List.not_mem_nil,
      or_false] at he
    rcases he with rfl | rfl <;> rfl
  have hf4 : (pollTraceFrom env 0 k).filter isMmioWriteEvent = [] :=
    pollTraceFrom_filter_nil env (fun v => rfl) rfl k 0
  refine ⟨?_, ?_, k, hz, hnz, rfl, ?_⟩
  · simp [mainTrace, preTrace, List.filter_append, List.filter_cons,
      hf1, hf2, hf3, hf4, isMmioWriteEvent]
  · intro r v hv
    simp [mainTrace, preTrace, loopTrace_mem, inBody, outInitBody, printBody] at hv
    rcases pollTraceFrom_mem env k 0 _ hv with ⟨v', heq⟩ | heq
    · simp only [Event.mmioRead.injEq] at heq
      exact heq.1
    · exact absurd heq (by simp)
  · intro e he r v
    intro heq
    subst heq
    simp [preTrace, loopTrace_mem, inBody, outInitBody] at he

set_option maxRecDepth 4000 in
/-- Witness for C5 at `num_inputs = 128` under `envW`. -/
theorem c5_witness :
    tW.filter isMmioWriteEvent =
      [Event.mmioWrite Reg.MMIO_RD_ADDR envW.inAddr,
       Event.mmioWrite Reg.MMIO_WR_ADDR envW.outAddr,
       Event.mmioWrite Reg.MMIO_SIZE (num_cls 128),
       Event.mmioWrite Reg.MMIO_GO 1] ∧
    (∀ r v, Event.mmioRead r v ∈ tW → r = Reg.MMIO_DONE) ∧
    (∃ k, (∀ j < k, envW.done j = 0) ∧ envW.done k ≠ 0 ∧
      tW = preTrace envW 128 ++ Event.mmioWrite Reg.MMIO_GO 1 ::
          (pollTraceFrom envW 0 k ++
           (loopTrace (printBody envW) 0 (128 / 16) ++
            [Event.free Buf.input, Event.free Buf.output, Event.successMsg])) ∧
      (∀ e ∈ preTrace envW 128, ∀ r v, e ≠ Event.mmioRead r v)) :=
  c5_control_order envW 128 200 tW (by rfl)

/-- C10: between the write of the start trigger and the first read of
the output buffer, the only observable actions are reads of `MMIO_DONE`
and optional sleeps — no MMIO write and no modification of either
buffer. -/
theorem c10_frame (env : Env) (n fuel : Nat) (t : List Event)
    (h128 : n % 128 = 0) (hpos : 0 < n) (h : runMain env n fuel = some t) :
    ∃ pre seg rest, t = pre ++ Event.mmioWrite Reg.MMIO_GO 1 ::
        (seg ++ Event.bufRead Buf.output 0 (env.out 0) :: rest) ∧
      ∀ e ∈ seg, (∃ v, e = Event.mmioRead Reg.MMIO_DONE v) ∨ e = Event.sleep := by
  obtain ⟨hn, k, hz, hnz, rfl⟩ := runMain_some h
  have h128le : 128 ≤ n := Nat.le_of_dvd hpos (Nat.dvd_of_mod_eq_zero h128)
  obtain ⟨m, hm⟩ : ∃ m, n / 16 = m + 1 := ⟨n / 16 - 1, by omega⟩
  refine ⟨preTrace env n, pollTraceFrom env 0 k,
    Event.print (env.out 0) :: (loopTrace (printBody env) 1 m ++
      [Event.free Buf.input, Event.free Buf.output, Event.successMsg]), ?_, ?_⟩
  · unfold mainTrace
    rw [hm]
    simp [loopTrace, printBody]
  · intro e he
    exact pollTraceFrom_mem env k 0 e he

set_option maxRecDepth 4000 in
/-- Witness for C10 at `num_inputs = 128` under `envW`. -/
theorem c10_witness :
    ∃ pre seg rest, tW = pre ++ Event.mmioWrite Reg.MMIO_GO 1 ::
        (seg ++ Event.bufRead Buf.output 0 (envW.out 0) :: rest) ∧
      ∀ e ∈ seg, (∃ v, e = Event.mmioRead Reg.MMIO_DONE v) ∨ e = Event.sleep :=
  c10_frame envW 128 200 tW (by decide) (by decide) (by rfl)

end SimplePipeline
